import Mathlib

/-!
Verification of the rule-driven JSON projection engine of
src/service/models.py (classes JSONManifest and JSONFactory).

The engine is embedded shallowly: Python dictionaries become ordered
association lists (Python dicts preserve insertion order; assigning to an
existing key keeps its position), mutation of the record being built becomes
functional update, and code paths that raise exceptions return an error of
type PyErr.  All definitions follow the source; deviations forced by the
shallow embedding (for example, the iteration order of a CPython set, which
is hash-dependent, is modelled as first-seen order) are noted in comments at
the point where they occur, and no theorem below depends on such a choice.
-/

/-- A Python exception class, as coarse-grained as the proofs need.
Raising an exception anywhere inside the engine aborts the projection, so
only the class of the exception is observable from the outside. -/
inductive PyErr where
  | typeError
  | attributeError
  | unboundLocalError
  | indexError
  | valueError
deriving Repr, DecidableEq

/-- A JSON document value: the data model of src/service/models.py.
Python dictionaries are modelled as insertion-ordered association lists. -/
inductive JValue where
  | null
  | bool (b : Bool)
  | int (n : Int)
  | str (s : String)
  | list (xs : List JValue)
  | obj (kvs : List (String × JValue))
deriving Repr, Inhabited

/-- A scalar is any value that is neither a mapping nor a list:
exactly the values that `flatten` yields as leaves. -/
def JValue.isScalar : JValue → Bool
  | .list _ => false
  | .obj _ => false
  | _ => true

/-- A mapping (Python dict). -/
def JValue.isObj : JValue → Bool
  | .obj _ => true
  | _ => false

/-- A Python list. -/
def JValue.isList : JValue → Bool
  | .list _ => true
  | _ => false

/-- Python `==` on the values the engine actually compares.  The engine only
ever compares scalars (flatten yields scalar leaves, predicate literals are
strings, and composite values are unhashable and raise before any equality
test), so composite against composite is modelled as `false` and is never
reached by any theorem below.  Python's `True == 1` and `False == 0` are
honoured. -/
def pyEqB : JValue → JValue → Bool
  | .null, .null => true
  | .bool a, .bool b => a == b
  | .int a, .int b => a == b
  | .str a, .str b => a == b
  | .bool a, .int b => (if a then (1 : Int) else 0) == b
  | .int a, .bool b => a == (if b then (1 : Int) else 0)
  | _, _ => false

/-! ## String helpers (Python `in`, `str.replace`, `re` fragments) -/

/-- Does the second list start with the first? -/
def startsWithL : List Char → List Char → Bool
  | [], _ => true
  | _ :: _, [] => false
  | p :: ps, c :: cs => p == c && startsWithL ps cs

/-- Python `needle in hay` on strings: substring containment
(`"" in s` is `True`). -/
def hasSubL (p : List Char) : List Char → Bool
  | [] => p.isEmpty
  | c :: cs => startsWithL p (c :: cs) || hasSubL p cs

/-- Python `needle in hay` for strings. -/
def containsSub (needle hay : String) : Bool :=
  hasSubL needle.toList hay.toList

/-- Python `s.replace(p, r)`: replace every non-overlapping occurrence,
scanning left to right.  Every step consumes at least one character, so a
fuel of the input length is always enough; the engine never calls
`replace` with an empty pattern.  (Fuel keeps the recursion structural, so
that concrete runs reduce definitionally.) -/
def replaceAllGo (p r : List Char) : Nat → List Char → List Char
  | 0, l => l
  | _ + 1, [] => []
  | fuel + 1, c :: cs =>
    if p ≠ [] ∧ startsWithL p (c :: cs) = true then
      r ++ replaceAllGo p r fuel ((c :: cs).drop p.length)
    else
      c :: replaceAllGo p r fuel cs

/-- Python `s.replace(p, r)` as a String function. -/
def pyReplace (s p r : String) : String :=
  String.mk (replaceAllGo p.toList r.toList s.toList.length s.toList)

/-- Replace only the first occurrence of `p` (used solely to state claim C5
the way it is written; the source's `str.replace` replaces every
occurrence). -/
def replaceFirstL (p r : List Char) (l : List Char) : List Char :=
  match l with
  | [] => []
  | c :: cs =>
    if p ≠ [] ∧ startsWithL p (c :: cs) = true then
      r ++ (c :: cs).drop p.length
    else
      c :: replaceFirstL p r cs

/-- Replace only the first occurrence, on Strings. -/
def pyReplaceFirst (s p r : String) : String :=
  String.mk (replaceFirstL p.toList r.toList s.toList)

/-- The class `\w` of the source's regular expressions. -/
def isWordChar (c : Char) : Bool := c.isAlphanum || c == '_'

/-- Greedily take a maximal run of characters satisfying `f`. -/
def takeRun (f : Char → Bool) : List Char → List Char × List Char
  | [] => ([], [])
  | c :: cs =>
    if f c then
      let (w, r) := takeRun f cs
      (c :: w, r)
    else ([], c :: cs)

/-- Digits of a decimal numeral to a natural number. -/
def digitsToNat (ds : List Char) : Nat :=
  ds.foldl (fun acc c => acc * 10 + (c.toNat - '0'.toNat)) 0

/-- Python `s.split(sep)` for a non-empty separator, on character lists:
each step consumes at least one character, so a fuel of the input length
plus one is always enough. -/
def splitOnGo (sep : List Char) : Nat → List Char → List Char →
    List (List Char)
  | 0, l, cur => [cur ++ l]
  | _ + 1, [], cur => [cur]
  | fuel + 1, c :: cs, cur =>
    if startsWithL sep (c :: cs) = true then
      cur :: splitOnGo sep fuel ((c :: cs).drop sep.length) []
    else
      splitOnGo sep fuel cs (cur ++ [c])

/-- Python `s.split(sep)`. -/
def pySplit (s sep : String) : List String :=
  (splitOnGo sep.toList (s.toList.length + 1) s.toList []).map String.mk

/-- Python `s.strip()`: drop whitespace from both ends. -/
def pyStrip (s : String) : String :=
  String.mk
    (((s.toList.dropWhile Char.isWhitespace).reverse.dropWhile
      Char.isWhitespace).reverse)

/-- Python `c in s` for a single character. -/
def containsChar (s : String) (c : Char) : Bool :=
  s.toList.contains c

/-! ## Python dictionaries as insertion-ordered association lists -/

/-- Python `d[k] = v`: overwrite in place when the key exists (keeping its
position), append otherwise. -/
def aListUpd {α : Type} (l : List (String × α)) (k : String) (v : α) :
    List (String × α) :=
  if l.any (fun p => p.1 == k) then
    l.map (fun p => if p.1 == k then (k, v) else p)
  else l ++ [(k, v)]

/-- Python `dict(pairs)`. -/
def dictOfList (l : List (String × JValue)) : List (String × JValue) :=
  l.foldl (fun acc p => aListUpd acc p.1 p.2) []

/-- Python `d.get(k)` / `k in d`. -/
def aListGet {α : Type} (l : List (String × α)) (k : String) : Option α :=
  (l.find? (fun p => p.1 == k)).map Prod.snd

/-- Python `d.get(k, 0)` for the iterate rule's target_track. -/
def trackGet (l : List (String × Nat)) (k : String) : Nat :=
  (aListGet l k).getD 0

/-! ## Flattener (JSONManifest.flatten) -/

mutual

/-- The inner generator iter_child of JSONManifest.flatten: depth-first
walk yielding a pair per scalar leaf; dict keys extend the path with `.k`,
list elements suffix the last path component with `[i]`. -/
def flattenAux : JValue → List String → List (String × JValue)
  | .obj kvs, keys => flattenObj kvs keys
  | .list xs, keys => flattenArr xs 0 keys
  | v, keys => [(String.intercalate "." keys, v)]

/-- Dict branch of iter_child, in insertion order. -/
def flattenObj : List (String × JValue) → List String → List (String × JValue)
  | [], _ => []
  | (k, v) :: rest, keys => flattenAux v (keys ++ [k]) ++ flattenObj rest keys

/-- List branch of iter_child: the last path component gets the `[i]`
suffix (the source reads keys[-1] / keys[:-1]; keys is never empty because
the walk starts at the root key). -/
def flattenArr : List JValue → Nat → List String → List (String × JValue)
  | [], _, _ => []
  | v :: rest, i, keys =>
      flattenAux v
        (keys.dropLast ++ [keys.getLastD "" ++ "[" ++ toString i ++ "]"]) ++
      flattenArr rest (i + 1) keys

end

/-- JSONManifest.flatten: yield from iter_child(data, ['$']). -/
def flattenDoc (d : JValue) : List (String × JValue) :=
  flattenAux d ["$"]

/-! ## Rules -/

/-- One entry of an iterate rule's mappings list. -/
structure IterMapping where
  source : String
  target : String
deriving Repr

/-- The iterate discriminator's payload. -/
structure IterateRule where
  source_list : String
  target_list : String
  mappings : List IterMapping
deriving Repr

/-- A mapping rule.  A Python rule is a dict that may carry any of the four
discriminator keys (each is processed independently by JSONManifest);
`target` models rule.get('target') for the rules that use one. -/
structure Rule where
  source : Option String
  target : String
  check_match : Option (List String)
  iterate : Option IterateRule
  filter_unique : Option String
deriving Repr

/-- A plain source→target rule. -/
def srcRule (s t : String) : Rule := ⟨some s, t, none, none, none⟩

/-- A check_match rule. -/
def cmRule (ps : List String) (t : String) : Rule := ⟨none, t, some ps, none, none⟩

/-- An iterate rule. -/
def itRule (sl tl : String) (ms : List IterMapping) : Rule :=
  ⟨none, "", none, some ⟨sl, tl, ms⟩, none⟩

/-- A filter_unique rule. -/
def fuRule (p : String) : Rule := ⟨none, "", none, none, some p⟩

/-! ## Manifest builder (JSONManifest.__iter__) -/

/-- First-seen deduplication by an equivalence test: one representative per
equivalence class, at its first position.  The tests used with it (Python
`==` on hashable values) are equivalences, for which this is exactly the
member list of the Python set, respectively OrderedDict.fromkeys
(CPython's set iteration order is hash-dependent; every use below is
insensitive to the order, only to the members and the count). -/
def dedupByB {α : Type} (eq : α → α → Bool) : List α → List α
  | [] => []
  | x :: xs => x :: (dedupByB eq xs).filter (fun y => !(eq x y))

/-- Equality of (suffix, value) tuples as Python compares set members. -/
def pairEqB (a b : String × JValue) : Bool := a.1 == b.1 && pyEqB a.2 b.2

/-- The check_match candidate list, exactly as the source builds it: for
each flat pair in order, for each rule path in order, if the rule path is a
substring of the flat path, append (path.replace(rulePath, ''), value). -/
def cmCandidates (pats : List String) (fdata : List (String × JValue)) :
    List (String × JValue) :=
  fdata.foldl (fun acc pv =>
    pats.foldl (fun acc2 cp =>
      if containsSub cp pv.1 then acc2 ++ [(pyReplace pv.1 cp "", pv.2)]
      else acc2) acc) []

/-- The manifest entries of a check_match rule: nothing when the candidate
list is empty, otherwise one boolean at the target; the boolean is Python's
`len(set(tuples)) == len(candidates)/2`, i.e. twice the number of distinct
(suffix, value) tuples equals the candidate count. -/
def cmEmit (target : String) (pats : List String)
    (fdata : List (String × JValue)) : List (String × JValue) :=
  let cands := cmCandidates pats fdata
  if cands.isEmpty then []
  else [(target, .bool (2 * (dedupByB pairEqB cands).length == cands.length))]

/-! The iterate rule's regex `({source_list with '$.' escaped}\[\d+\])`:
only the two characters of each '$.' occurrence are escaped, so any other
'.' in the source_list remains a regex wildcard. -/

/-- Compile the source_list into a literal/wildcard pattern, mirroring
str(source_list).replace('$.', r'\$\.') read as a regex. -/
def slPattern : List Char → List (Option Char)
  | '$' :: '.' :: rest => some '$' :: some '.' :: slPattern rest
  | '.' :: rest => none :: slPattern rest
  | c :: rest => some c :: slPattern rest
  | [] => []

/-- Match a literal/wildcard pattern at the head of the input, returning
the matched characters and the remainder. -/
def matchPat : List (Option Char) → List Char → Option (List Char × List Char)
  | [], rest => some ([], rest)
  | _ :: _, [] => none
  | some p :: ps, c :: cs =>
      if p == c then (matchPat ps cs).map (fun pr => (c :: pr.1, pr.2))
      else none
  | none :: ps, c :: cs => (matchPat ps cs).map (fun pr => (c :: pr.1, pr.2))

/-- Leftmost match of `pattern\[\d+\]`, returning the matched substring
(the source-list index token), like re.findall(...)[0]. -/
def findTokenAux (pat : List (Option Char)) : List Char → Option String
  | [] => none
  | c :: cs =>
      match matchPat pat (c :: cs) with
      | some (m, r) =>
          match r with
          | '[' :: r2 =>
              let (ds, r3) := takeRun Char.isDigit r2
              if ds ≠ [] ∧ r3.head? = some ']' then
                some (String.mk (m ++ '[' :: (ds ++ [']'])))
              else findTokenAux pat cs
          | _ => findTokenAux pat cs
      | none => findTokenAux pat cs

/-- The source-list index token of a flat path, if any. -/
def findToken (sl : String) (path : String) : Option String :=
  findTokenAux (slPattern sl.toList) path.toList

/-- The running state of an iterate rule: the target_track dictionary, the
source_track list, the Python local variable target_list, and the entries
emitted so far. -/
def IterAcc : Type :=
  List (String × Nat) × List String × Option String × List (String × JValue)

/-- The body of the iterate rule's inner loop, for one flat pair and one
mapping: emit when the mapping source and the source_list are substrings of
the flat path, bumping the target cursor on each fresh source-list index
token. -/
def iterInner (ir : IterateRule) (pv : String × JValue) (acc2 : IterAcc)
    (m : IterMapping) : IterAcc :=
  let (track, strack, _lastTL, out) := acc2
  if containsSub m.source pv.1 && containsSub ir.source_list pv.1 then
    let tl := ir.target_list
    let track := aListUpd track tl (trackGet track tl)
    let (track, strack) :=
      match findToken ir.source_list pv.1 with
      | some tok =>
          if strack.contains tok then (track, strack)
          else
            let track :=
              if strack.isEmpty then track
              else aListUpd track tl (trackGet track tl + 1)
            (track, strack ++ [tok])
      | none => (track, strack)
    let path := tl ++ "[" ++ toString (trackGet track tl) ++ "]" ++ m.target
    (track, strack, some tl, out ++ [(path, pv.2)])
  else acc2

/-- One step of the iterate rule's outer loop over the flat pairs. -/
def iterOuter (ir : IterateRule) (acc : IterAcc) (pv : String × JValue) :
    IterAcc :=
  ir.mappings.foldl (iterInner ir pv) acc

/-- Run one iterate rule over the flattened data, returning the updated
track, the last assigned target_list and the emitted entries. -/
def iterRuleRun (ir : IterateRule) (fdata : List (String × JValue))
    (track0 : List (String × Nat)) (lastTL0 : Option String) :
    List (String × Nat) × Option String × List (String × JValue) :=
  let r := fdata.foldl (iterOuter ir) (track0, [], lastTL0, [])
  (r.1, r.2.2.1, r.2.2.2)

/-- Process one rule of JSONManifest.__iter__: the source block, then the
check_match block, then the iterate block.  After the iterate loop the
source runs target_track[target_list] += 1 on the Python local variable
target_list; when no iterate rule has ever matched, that variable was never
assigned and the generator raises UnboundLocalError. -/
def manifestStep (fdata : List (String × JValue)) (rule : Rule)
    (track : List (String × Nat)) (lastTL : Option String) :
    List (String × JValue) × List (String × Nat) × Option String ×
    Option PyErr :=
  let srcOut := match rule.source with
    | some s => (fdata.filter (fun pv => pv.1 == s)).map
        (fun pv => (rule.target, pv.2))
    | none => []
  let cmOut := match rule.check_match with
    | some pats => cmEmit rule.target pats fdata
    | none => []
  match rule.iterate with
  | some ir =>
      let (track2, lastTL2, itOut) := iterRuleRun ir fdata track lastTL
      match lastTL2 with
      | none => (srcOut ++ cmOut ++ itOut, track2, none, some .unboundLocalError)
      | some tl =>
          (srcOut ++ cmOut ++ itOut,
           aListUpd track2 tl (trackGet track2 tl + 1), some tl, none)
  | none => (srcOut ++ cmOut, track, lastTL, none)

/-- The whole generator: the entries it yields, in order, and the exception
it raises at the point where it stops, if any (rules after the exception are
never reached). -/
def manifestTraceAux (fdata : List (String × JValue)) :
    List Rule → List (String × Nat) → Option String →
    List (String × JValue) × Option PyErr
  | [], _, _ => ([], none)
  | r :: rs, track, lastTL =>
      let (out, track2, lastTL2, e) := manifestStep fdata r track lastTL
      match e with
      | some err => (out, some err)
      | none =>
          let (rest, e2) := manifestTraceAux fdata rs track2 lastTL2
          (out ++ rest, e2)

/-- iter(JSONManifest(data, rules)): the flattened data is
dict(flatten(data)) and the cursor state starts empty. -/
def manifestTrace (d : JValue) (rules : List Rule) :
    List (String × JValue) × Option PyErr :=
  manifestTraceAux (dictOfList (flattenDoc d)) rules [] none

/-- JSONManifest.find_filters: the paths of the UNIQUE filter kind, in rule
order. -/
def findFilters (rules : List Rule) : List String :=
  rules.filterMap (fun r => r.filter_unique)

/-! ## Path parser (JSONFactory.parse_path / RE_PAT)

RE_PAT is `\.(?P<key>\w+)(?:\[(?:(?P<index>\d+)|(?P<query>\?\(...\)))\])*`
and parse_path runs findall over the whole path: the scanner below walks
the string position by position exactly as the regex engine does, emitting
a segment at each position where the pattern matches and silently stepping
over every character that does not start a match.  Unparsable portions of a
path are therefore skipped, never rejected. -/

/-- A parsed path segment: dict(zip(RE_IDX, match)) with empty captures
replaced by None. -/
structure Seg where
  key : String
  index : Option String
  query : Option String
deriving Repr

/-- Parse one predicate `@\.\w+\s*==\s*literal` where literal is a quoted
string (either quote on either side), an integer, or true/false/null;
returns the remaining input. -/
def parseOnePred (cs : List Char) : Option (List Char) :=
  match cs with
  | '@' :: '.' :: rest =>
      let (w, r1) := takeRun isWordChar rest
      if w = [] then none
      else
        let (_, r2) := takeRun Char.isWhitespace r1
        match r2 with
        | '=' :: '=' :: r3 =>
            let (_, r4) := takeRun Char.isWhitespace r3
            match r4 with
            | q :: r5 =>
                if q = '\'' ∨ q = '"' then
                  let (body, r6) := takeRun
                    (fun c => isWordChar c || c == '.' || c.isWhitespace ||
                      c == '-') r5
                  if body = [] then none
                  else match r6 with
                    | q2 :: r7 => if q2 = '\'' ∨ q2 = '"' then some r7 else none
                    | [] => none
                else if q.isDigit then
                  let (_, r6) := takeRun Char.isDigit (q :: r5)
                  some r6
                else if startsWithL "true".toList (q :: r5) then
                  some ((q :: r5).drop 4)
                else if startsWithL "false".toList (q :: r5) then
                  some ((q :: r5).drop 5)
                else if startsWithL "null".toList (q :: r5) then
                  some ((q :: r5).drop 4)
                else none
            | [] => none
        | _ => none
  | _ => none

/-- Parse `(\s*&&\s*pred)*` after a predicate. -/
def parseMorePreds : Nat → List Char → List Char
  | 0, cs => cs
  | fuel + 1, cs =>
      let (_, r1) := takeRun Char.isWhitespace cs
      match r1 with
      | '&' :: '&' :: r2 =>
          let (_, r3) := takeRun Char.isWhitespace r2
          match parseOnePred r3 with
          | some r4 => parseMorePreds fuel r4
          | none => cs
      | _ => cs

/-- Parse a whole query `\?\(pred(\s*&&\s*pred)*\)` at the head of the
input, returning the matched text (the regex group, brackets excluded) and
the remainder. -/
def parseQuery (cs : List Char) : Option (String × List Char) :=
  match cs with
  | '?' :: '(' :: rest =>
      match parseOnePred rest with
      | some r1 =>
          let r2 := parseMorePreds rest.length r1
          match r2 with
          | ')' :: r3 =>
              let consumed := cs.length - r3.length
              some (String.mk (cs.take consumed), r3)
          | _ => none
      | none => none
  | _ => none

/-- Parse the `(?:\[(?:index|query)\])*` bracket groups of one segment; as
with a regex, each group keeps only its last capture. -/
def parseBrackets : Nat → List Char → Option String → Option String →
    Option String × Option String × List Char
  | 0, cs, idx, q => (idx, q, cs)
  | fuel + 1, cs, idx, q =>
      match cs with
      | '[' :: rest =>
          let (ds, r1) := takeRun Char.isDigit rest
          if ds ≠ [] ∧ r1.head? = some ']' then
            parseBrackets fuel (r1.drop 1) (some (String.mk ds)) q
          else
            match parseQuery rest with
            | some (qs, r2) =>
                match r2 with
                | ']' :: r3 => parseBrackets fuel r3 idx (some qs)
                | _ => (idx, q, cs)
            | none => (idx, q, cs)
      | _ => (idx, q, cs)

/-- The findall scan: at each position, try to match
`\.\w+(\[(index|query)\])*`; on success emit the segment and continue after
the match, otherwise advance one character.  Every step consumes at least
one character, so a fuel of the input length is always enough. -/
def parseSegsGo : Nat → List Char → List Seg
  | 0, _ => []
  | _ + 1, [] => []
  | fuel + 1, '.' :: rest =>
      let (w, r1) := takeRun isWordChar rest
      if w = [] then parseSegsGo fuel rest
      else
        let (idx, q, r2) := parseBrackets r1.length r1 none none
        ⟨String.mk w, idx, q⟩ :: parseSegsGo fuel r2
  | fuel + 1, _ :: rest => parseSegsGo fuel rest

/-- JSONFactory.parse_path. -/
def parseSegs (path : String) : List Seg :=
  parseSegsGo path.toList.length path.toList

/-! ## Query navigation (JSONFactory.iter_with_query) -/

/-- One piece of a predicate:
t.strip().replace('@.', '').replace("'", '').replace('"', '').strip(). -/
def condPiece (s : String) : String :=
  pyStrip (pyReplace (pyReplace (pyReplace (pyStrip s) "@." "") "'" "") "\"" "")

/-- The conditions comprehension of iter_with_query: split query[2:-1] on
'&&', split each part on '==' and normalise both sides.  Every literal,
integer or not, stays a string.  A part that does not split into exactly
two pieces would make Python's 2-tuple unpacking (or dict(conditions))
raise ValueError. -/
def conditionsOf (q : String) : Except PyErr (List (String × String)) :=
  let body := String.mk ((q.toList.drop 2).dropLast)
  (pySplit body "&&").mapM (fun s =>
    match (pySplit (pyStrip s) "==").map condPiece with
    | [k, v] => Except.ok (k, v)
    | _ => Except.error .valueError)

/-- Python dict(conditions): predicate pairs as a fresh placeholder
mapping; every value is a string. -/
def dictOfConds (conds : List (String × String)) : JValue :=
  .obj (dictOfList (conds.map (fun p => (p.1, .str p.2))))

/-- all(ele.get(k) == v for k, v in conditions) for one dict element:
a missing key yields Python None, and the comparison is Python `==`
against the (always string) literal. -/
def predMatch (conds : List (String × String))
    (kvs : List (String × JValue)) : Bool :=
  conds.all (fun c => pyEqB ((aListGet kvs c.1).getD .null) (.str c.2))

/-- Python list indexing semantics: a negative index counts from the end;
out of range raises IndexError. -/
def pyIdx {α : Type} (xs : List α) (i : Int) : Except PyErr α :=
  let j := if i < 0 then i + xs.length else i
  if j < 0 then .error .indexError
  else
    match xs.get? j.toNat with
    | some x => .ok x
    | none => .error .indexError

/-- Python list item assignment, with the same index semantics. -/
def pySet {α : Type} (xs : List α) (i : Int) (v : α) :
    Except PyErr (List α) :=
  let j := if i < 0 then i + xs.length else i
  if j < 0 then .error .indexError
  else if j.toNat < xs.length then .ok (xs.set j.toNat v)
  else .error .indexError

/-- The indices of the elements of reference[key] that satisfy every
predicate, as enumerate produces them.  Every element must be a dict or
ele.get raises (modelled as AttributeError). -/
def matchIndices (conds : List (String × String)) :
    Nat → List JValue → Except PyErr (List Int)
  | _, [] => .ok []
  | i, .obj kvs :: rest => do
      let others ← matchIndices conds (i + 1) rest
      if predMatch conds kvs then Except.ok ((i : Int) :: others)
      else Except.ok others
  | _, _ :: _ => .error .attributeError

/-- Case B's `for idx in indices` loop: recurse into each matched element
with the given continuation, threading the (mutated) list through. -/
def caseBGo (rec : JValue → Except PyErr JValue) :
    List Int → List JValue → Except PyErr (List JValue)
  | [], xs => .ok xs
  | i :: is, xs => do
      let elem ← pyIdx xs i
      let newElem ← rec elem
      let xs ← pySet xs i newElem
      caseBGo rec is xs

/-- JSONFactory.iter_with_query, with the reference's mutation made
functional: the updated reference is returned, and the places where the
source discards a recursive call's return value but observes its mutation
of a shared sub-dict are modelled by writing the recursion's result back at
that position.  When the source recurses into an object that the reference
does not reach (case D with a missing key), the result really is discarded:
only an exception escapes.  Non-dict references and non-list
reference[key] values raise in Python with an exception class that depends
on the concrete type; both are modelled with a single class each
(TypeError for the `in` test, AttributeError for the list operations). -/
def iterWithQuery (f : JValue → Except PyErr JValue) :
    List Seg → JValue → Except PyErr JValue
  | [], _ => .error .indexError
  | seg :: ks, ref =>
      match seg.query with
      | some q => do
          let conds ← conditionsOf q
          let kvs ← match ref with
            | .obj kvs => Except.ok kvs
            | _ => Except.error .typeError
          let kvs := if (aListGet kvs seg.key).isSome then kvs
            else aListUpd kvs seg.key (.list [])
          let xs ← match (aListGet kvs seg.key).getD .null with
            | .list xs => Except.ok xs
            | _ => Except.error .attributeError
          let idcs ← matchIndices conds 0 xs
          match seg.index with
          | some iStr =>
              let index : Int := (digitsToNat iStr.toList : Nat)
              let rlen : Int := idcs.length
              let (xs, idcs, index) :=
                if rlen ≤ index then
                  (xs ++ List.replicate (index + 1 - rlen).toNat
                     (dictOfConds conds),
                   idcs ++ [(-1 : Int)], (-1 : Int))
                else (xs, idcs, index)
              let pos ← pyIdx idcs index
              let elem ← pyIdx xs pos
              if ks.isEmpty then do
                let v ← f elem
                let xs ← pySet xs pos v
                Except.ok (.obj (aListUpd kvs seg.key (.list xs)))
              else do
                let newElem ← iterWithQuery f ks elem
                let xs ← pySet xs pos newElem
                Except.ok (.obj (aListUpd kvs seg.key (.list xs)))
          | none =>
              let (xs, idcs) :=
                if idcs = [] then (xs ++ [dictOfConds conds], [(-1 : Int)])
                else (xs, idcs)
              if ks.isEmpty then
                -- reference[key][index] with index still None:
                -- list indices must be integers, TypeError
                Except.error .typeError
              else do
                let xs ← caseBGo (fun v => iterWithQuery f ks v) idcs xs
                Except.ok (.obj (aListUpd kvs seg.key (.list xs)))
      | none =>
        match seg.index with
        | some iStr => do
            let idx := digitsToNat iStr.toList
            let kvs ← match ref with
              | .obj kvs => Except.ok kvs
              | _ => Except.error .typeError
            let kvs := if (aListGet kvs seg.key).isSome then kvs
              else aListUpd kvs seg.key (.list [])
            let xs ← match (aListGet kvs seg.key).getD .null with
              | .list xs => Except.ok xs
              | _ => Except.error .attributeError
            let xs := if xs.length ≤ idx then
                xs ++ List.replicate (idx + 1 - xs.length) (JValue.obj [])
              else xs
            let elem ← pyIdx xs (idx : Nat)
            if ks.isEmpty then do
              let v ← f elem
              let xs ← pySet xs (idx : Nat) v
              Except.ok (.obj (aListUpd kvs seg.key (.list xs)))
            else do
              let newElem ← iterWithQuery f ks elem
              let xs ← pySet xs (idx : Nat) newElem
              Except.ok (.obj (aListUpd kvs seg.key (.list xs)))
        | none => do
            let kvs ← match ref with
              | .obj kvs => Except.ok kvs
              | _ => Except.error .attributeError
            if ks.isEmpty then do
              let v ← f ((aListGet kvs seg.key).getD (JValue.obj []))
              Except.ok (.obj (aListUpd kvs seg.key v))
            else
              match aListGet kvs seg.key with
              | some sub => do
                  let newSub ← iterWithQuery f ks sub
                  Except.ok (.obj (aListUpd kvs seg.key newSub))
              | none => do
                  -- ref = reference.get(key, {}) creates a fresh dict that
                  -- is never attached to the reference: the recursion's
                  -- writes are lost, only an exception escapes
                  let _ ← iterWithQuery f ks (JValue.obj [])
                  Except.ok (.obj kvs)
termination_by structural segs => segs

/-- JSONFactory.insert_query: iter_with_query with a function that ignores
its argument and returns the value to insert. -/
def insertQuery (path : String) (value : JValue) (record : JValue) :
    Except PyErr JValue :=
  iterWithQuery (fun _ => Except.ok value) (parseSegs path) record

/-! ## Plain insertion (JSONFactory.insert_value) -/

/-- re.search(r"\[(?P\x3cindex\x3e\d+)\]", key): leftmost occurrence of a
bracketed decimal index, returning the matched text. -/
def searchIdxL : List Char → Option String
  | [] => none
  | '[' :: rest =>
      let (ds, r) := takeRun Char.isDigit rest
      if ds ≠ [] ∧ r.head? = some ']' then
        some (String.mk ('[' :: (ds ++ [']'])))
      else searchIdxL rest
  | _ :: rest => searchIdxL rest

/-- _get_index on a successful search: the key with every copy of the
matched text removed, and the index.  `none` corresponds to the source's
`return None, None`. -/
def getIndexF (key : String) : Option (String × Nat) :=
  match searchIdxL key.toList with
  | some mstr =>
      some (pyReplace key mstr "", digitsToNat ((mstr.toList.drop 1).dropLast))
  | none => none

/-- The recursive _iter of insert_value.  The source tests `if index:` on
_get_index's result, but that result is the 2-tuple (None, None) when the
key has no bracketed index, and a non-empty tuple is always truthy: the
list branch runs with key = idx = None, inserts reference[None] = [] and
then evaluates `0 <= None`, raising TypeError.  insert_value therefore
raises on every path segment without an index. -/
def insertIter (value : JValue) : List String → JValue → Except PyErr JValue
  | [], ref => .ok ref
  | k :: ks, ref =>
      match getIndexF k with
      | some (k2, idx) => do
          let kvs ← match ref with
            | .obj kvs => Except.ok kvs
            | _ => Except.error .typeError
          let kvs := if (aListGet kvs k2).isSome then kvs
            else aListUpd kvs k2 (.list [])
          let xs ← match (aListGet kvs k2).getD .null with
            | .list xs => Except.ok xs
            | _ => Except.error .attributeError
          let xs := if xs.length ≤ idx then
              xs ++ List.replicate (idx + 1 - xs.length) (JValue.obj [])
            else xs
          if ks.isEmpty then do
            let xs ← pySet xs (idx : Nat) value
            Except.ok (.obj (aListUpd kvs k2 (.list xs)))
          else do
            let elem ← pyIdx xs (idx : Nat)
            let newElem ← insertIter value ks elem
            let xs ← pySet xs (idx : Nat) newElem
            Except.ok (.obj (aListUpd kvs k2 (.list xs)))
      | none =>
          .error .typeError

/-- JSONFactory.insert_value: split the path on '.', drop a leading '$',
run _iter.  The record mutated in place is the function's observable
effect, so the updated record is returned. -/
def insertValue (path : String) (value : JValue) (record : JValue) :
    Except PyErr JValue :=
  let pk := pySplit path "."
  let pk := if pk.head? = some "$" then pk.drop 1 else pk
  insertIter value pk record

/-! ## Filter stage (remove_duplicates / filter_record) -/

/-- Are all values of a mapping scalars?  tuple(d.items()) is hashable
exactly when this holds (non-mappings vacuously pass). -/
def objValsScalar : JValue → Bool
  | .obj kvs => kvs.all (fun p => p.2.isScalar)
  | _ => true

/-- Tuple equality of two dicts' items() sequences: componentwise, in
order, with Python equality on the (scalar) values. -/
def itemsEqB : List (String × JValue) → List (String × JValue) → Bool
  | [], [] => true
  | a :: as, b :: bs => a.1 == b.1 && pyEqB a.2 b.2 && itemsEqB as bs
  | _, _ => false

/-- Equality used by the dict-list branch of _dedup_list. -/
def dictEqB : JValue → JValue → Bool
  | .obj ka, .obj kb => itemsEqB ka kb
  | _, _ => false

/-- The _dedup_list helper of remove_duplicates.

When every element is a dict: `[dict(t) for t in {tuple(d.items()) for d
in input_list}]`.  tuple(d.items()) is hashable only when every value is
hashable, so a dict with a list or dict value raises TypeError.  CPython's
set iteration order is hash-dependent; it is modelled as first-seen order
and the theorems below use only membership and count.

Otherwise: OrderedDict.fromkeys, which keeps first occurrences in order and
raises TypeError on the first unhashable (dict or list) element.

A Python None input becomes []; iterating a dict iterates its keys and a
string its characters; an int or bool is not iterable and raises. -/
def dedupListF : JValue → Except PyErr JValue
  | .null => .ok (.list [])
  | .list xs =>
      if xs.all JValue.isObj then
        if xs.all objValsScalar then
          .ok (.list (dedupByB dictEqB xs))
        else .error .typeError
      else
        if xs.all JValue.isScalar then .ok (.list (dedupByB pyEqB xs))
        else .error .typeError
  | .obj kvs => .ok (.list (dedupByB pyEqB (kvs.map (fun p => .str p.1))))
  | .str s => .ok (.list (dedupByB pyEqB (s.toList.map
      (fun c => JValue.str (String.mk [c])))))
  | _ => .error .typeError

/-- JSONFactory.remove_duplicates: navigate with the query navigator and
apply _dedup_list at the target. -/
def removeDuplicates (path : String) (record : JValue) :
    Except PyErr JValue :=
  iterWithQuery dedupListF (parseSegs path) record

/-- JSONFactory.filter_record for the UNIQUE filter kind. -/
def filterRecord (paths : List String) (record : JValue) :
    Except PyErr JValue :=
  paths.foldlM (fun acc p => removeDuplicates p acc) record

/-! ## Projection (JSONFactory.get_projection) -/

/-- The first pass of get_projection: walk the manifest entries in yielded
order, inserting plain entries immediately and queueing the query-bearing
ones (those whose path contains '?'). -/
def plainPass : List (String × JValue) → JValue → List (String × JValue) →
    Except PyErr (JValue × List (String × JValue))
  | [], record, queued => .ok (record, queued)
  | (p, v) :: rest, record, queued =>
      if containsChar p '?' then plainPass rest record (queued ++ [(p, v)])
      else do
        let record ← insertValue p v record
        plainPass rest record queued

/-- get_projection up to (but not including) the filter stage: consume the
manifest generator, plain entries first, then the queued query entries.
The generator's own exception, if any, surfaces when the loop pulls past
the last yielded entry, i.e. after the yielded plain entries have been
inserted but before any query entry is processed. -/
def projectRaw (d : JValue) (rules : List Rule) : Except PyErr JValue := do
  let (items, genErr) := manifestTrace d rules
  let (record, queued) ← plainPass items (.obj []) []
  match genErr with
  | some e => Except.error e
  | none =>
      queued.foldlM (fun acc pv => insertQuery pv.1 pv.2 acc) record

/-- The engine's single entry point,
JSONFactory(JSONManifest(data, rules)).get_projection(): projection then
the filter stage. -/
def project (d : JValue) (rules : List Rule) : Except PyErr JValue := do
  let record ← projectRaw d rules
  filterRecord (findFilters rules) record

/-! ## The manifest object with its state made explicit (for claim C8) -/

/-- The attributes a JSONManifest instance holds after __init__: the data
and rules references, the flattened data, and the filter descriptor.  No
method of JSONManifest or JSONFactory ever assigns to these attributes
after construction. -/
structure EngineState where
  _data : JValue
  _rules : List Rule
  _fdata : List (String × JValue)
  _filters : List String

/-- JSONManifest.__init__. -/
def mkManifest (d : JValue) (rules : List Rule) : EngineState :=
  ⟨d, rules, dictOfList (flattenDoc d), findFilters rules⟩

/-- projectRaw, reading the instance's stored fields. -/
def projectRawS (s : EngineState) : Except PyErr JValue :=
  let (items, genErr) := manifestTraceAux s._fdata s._rules [] none
  (do
    let (record, queued) ← plainPass items (.obj []) []
    match genErr with
    | some e => Except.error e
    | none =>
        queued.foldlM (fun acc pv => insertQuery pv.1 pv.2 acc) record)

/-- JSONFactory.get_projection as a state transformer on the manifest
object: the result of the call paired with the instance state after the
call (the method only reads the attributes). -/
def getProjectionS (s : EngineState) : Except PyErr JValue × EngineState :=
  ((do
      let record ← projectRawS s
      filterRecord s._filters record), s)

/-! ## Claim-statement apparatus -/

/-- The candidate list as claim C5 words it: the suffix is the flat path
with only the first occurrence of the matching rule path removed.  The
source removes every occurrence; this definition exists to state and refute
the claim as written. -/
def cmCandidatesFirst (pats : List String) (fdata : List (String × JValue)) :
    List (String × JValue) :=
  fdata.flatMap (fun pv =>
    (pats.filter (fun cp => containsSub cp pv.1)).map
      (fun cp => (pyReplaceFirst pv.1 cp "", pv.2)))

/-! Modelled from the spec: the §4.1 output-path grammar, used only to
state claim C9 (the repository has no path validator and no PathSyntaxError
class).  path := "$" segment+; segment := "." key ("[" (index | query)
"]")*; key := [A-Za-z_][A-Za-z0-9_]*; index := [0-9]+; query := "?(" pred
("&&" pred)* ")"; pred := "@." key "==" literal; literal := quoted string,
integer, true, false or null. -/

/-- Grammar key: [A-Za-z_][A-Za-z0-9_]*, returning the rest. -/
def wfKey : List Char → Option (List Char)
  | c :: rest =>
      if c.isAlpha || c == '_' then
        some (takeRun (fun x => x.isAlphanum || x == '_') rest).2
      else none
  | [] => none

/-- Grammar literal. -/
def wfLiteral : List Char → Option (List Char)
  | '\'' :: rest =>
      let (_, r) := takeRun (fun c => c != '\'') rest
      (match r with
       | '\'' :: r2 => some r2
       | _ => none)
  | '"' :: rest =>
      let (_, r) := takeRun (fun c => c != '"') rest
      (match r with
       | '"' :: r2 => some r2
       | _ => none)
  | c :: rest =>
      if c.isDigit then some (takeRun Char.isDigit (c :: rest)).2
      else if startsWithL "true".toList (c :: rest) then
        some ((c :: rest).drop 4)
      else if startsWithL "false".toList (c :: rest) then
        some ((c :: rest).drop 5)
      else if startsWithL "null".toList (c :: rest) then
        some ((c :: rest).drop 4)
      else none
  | [] => none

/-- Grammar pred := "@." key "==" literal. -/
def wfPred (cs : List Char) : Option (List Char) :=
  match cs with
  | '@' :: '.' :: rest =>
      match wfKey rest with
      | some ('=' :: '=' :: r2) => wfLiteral r2
      | _ => none
  | _ => none

/-- Grammar ("&&" pred)*, allowing the whitespace around "&&" that the
section's own example path carries. -/
def wfPredMore : Nat → List Char → Option (List Char)
  | 0, cs => some cs
  | fuel + 1, cs =>
      match (takeRun Char.isWhitespace cs).2 with
      | '&' :: '&' :: r =>
          match wfPred (takeRun Char.isWhitespace r).2 with
          | some r2 => wfPredMore fuel r2
          | none => none
      | _ => some cs

/-- Grammar query := "?(" pred ("&&" pred)* ")". -/
def wfQuery (cs : List Char) : Option (List Char) :=
  match cs with
  | '?' :: '(' :: rest =>
      match wfPred rest with
      | some r1 =>
          match wfPredMore rest.length r1 with
          | some (')' :: r2) => some r2
          | _ => none
      | none => none
  | _ => none

/-- Grammar ("[" (index | query) "]")*: consume as many well-formed
bracket groups as present. -/
def wfBracketsGo : Nat → List Char → List Char
  | 0, cs => cs
  | fuel + 1, cs =>
      match cs with
      | '[' :: rest =>
          let (ds, r) := takeRun Char.isDigit rest
          if ds ≠ [] ∧ r.head? = some ']' then wfBracketsGo fuel (r.drop 1)
          else
            (match wfQuery rest with
             | some (']' :: r3) => wfBracketsGo fuel r3
             | _ => cs)
      | _ => cs

/-- Grammar segment+ followed by end of input. -/
def wfSegsGo : Nat → List Char → Bool
  | 0, _ => false
  | fuel + 1, cs =>
      match cs with
      | [] => true
      | '.' :: rest =>
          (match wfKey rest with
           | some r1 => wfSegsGo fuel (wfBracketsGo r1.length r1)
           | none => false)
      | _ => false

/-- Does a path parse under the spec's §4.1 output-path grammar? -/
def outputPathWF (p : String) : Bool :=
  match p.toList with
  | '$' :: rest => !rest.isEmpty && wfSegsGo (rest.length + 1) rest
  | _ => false

/-! ## The concrete documents and rule sets of the claims -/

/-- Scenario B data: the record of claim C1. -/
def dataB : JValue := .obj [("name", .str "r1"), ("val", .int 42)]

/-- Scenario B rules: two source rules writing under the same predicate
query. -/
def rulesB : List Rule :=
  [srcRule "$.name" "$.reports[?(@.title=='R')].name",
   srcRule "$.val" "$.reports[?(@.title=='R')].val"]

/-- Scenario C data (claim C6). -/
def dataC : JValue :=
  .obj [("xs", .list [.obj [("k", .str "a")], .obj [("k", .str "b")],
    .obj [("k", .str "c")]])]

/-- Scenario C rule: iterate $.xs into $.ys mapping .k to .key. -/
def rulesC : List Rule := [itRule "$.xs" "$.ys" [⟨".k", ".key"⟩]]

/-- Claim C2's failing input: a document none of whose flat paths matches
the iterate rule's source_list or mapping sources. -/
def dataNoMatch : JValue := .obj [("a", .int 1)]

/-- Scenario D data (check_match true). -/
def dataD : JValue :=
  .obj [("A", .obj [("x", .int 1), ("y", .int 2)]),
        ("B", .obj [("x", .int 1), ("y", .int 2)])]

/-- Scenario E data (check_match false). -/
def dataE : JValue :=
  .obj [("A", .obj [("x", .int 1)]), ("B", .obj [("x", .int 2)])]

/-- Data refuting claim C5 as written: the prefix ".a" occurs twice in the
flat path "$.a.a" (and ".b" twice in "$.b.b"). -/
def dataRep : JValue :=
  .obj [("a", .obj [("a", .int 1)]), ("b", .obj [("b", .int 1)])]

/-- The check_match rule of the C5 counterexample. -/
def rulesRep : List Rule := [cmRule [".a", ".b"] "$.s"]

/-- Claim C4's data. -/
def dataY : JValue := .obj [("a", .int 2), ("b", .int 7)]

/-- Claim C4's rules: the first builds an element whose y is the integer 2,
the second writes under the predicate ?(@.y==2). -/
def rulesY : List Rule :=
  [srcRule "$.a" "$.xs[?(@.z=='w')].y", srcRule "$.b" "$.xs[?(@.y==2)].m"]

/-- Claim C7's data. -/
def dataU : JValue := .obj [("n", .str "r1")]

/-- Claim C7's rules: build two equal mappings in $.xs, then deduplicate
them with filter_unique. -/
def rulesU : List Rule :=
  [srcRule "$.n" "$.xs[?(@.t=='u')][1].k",
   srcRule "$.n" "$.xs[?(@.t=='u')].k",
   fuRule "$.xs"]

/-- Claim C9's malformed output path (the query's trailing " && ]" does not
parse under the §4.1 grammar). -/
def badPath : String := "$.xs[?(@.t=='u') && ]"

/-- A second malformed output path for claim C9, without a query: the
dangling bracket does not parse under the §4.1 grammar, and the path goes
through insert_value (no '?'), which never consults parse_path. -/
def badPlainPath : String := "$.xs["

/-- Claim C10's rules for the all-mappings counterexample: the single list
element gets a list-valued field, making its items() tuple unhashable. -/
def rulesNest : List Rule :=
  [srcRule "$.v" "$.xs[?(@.t=='u')].a[0]", fuRule "$.xs"]

/-- Claim C10's rules for the mixed-list case: the plain writer pads
$.xs with an empty placeholder mapping before index 1, leaving a dict and
an int in the same list. -/
def rulesMixed : List Rule := [srcRule "$.v" "$.xs[1]", fuRule "$.xs"]

/-! # Theorems

General lemmas first, then one theorem per claim of the assessment (with
its witness or counterexample where required). -/

/-- Python equality is reflexive on scalars (it is not on composites, which
the engine never compares). -/
theorem pyEqB_refl_scalar (v : JValue) (h : v.isScalar = true) :
    pyEqB v v = true := by
  cases v <;> simp_all [pyEqB, JValue.isScalar]

/-- Python equality is transitive. -/
theorem pyEqB_trans (a b c : JValue) (hab : pyEqB a b = true)
    (hbc : pyEqB b c = true) : pyEqB a c = true := by
  cases a <;> cases b <;> cases c <;>
    (try simp only [pyEqB, beq_iff_eq] at hab hbc ⊢) <;>
    first
      | rfl
      | exact Bool.noConfusion hab
      | exact Bool.noConfusion hbc
      | exact absurd hab (by simp)
      | exact absurd hbc (by simp)
      | exact hab.trans hbc
      | omega
      | (subst hab; assumption)
      | (subst hbc; assumption)
      | (split_ifs at * <;> simp_all)

/-- Items-tuple equality is reflexive for scalar-valued mappings. -/
theorem itemsEqB_refl (l : List (String × JValue))
    (h : l.all (fun p => p.2.isScalar) = true) : itemsEqB l l = true := by
  induction l with
  | nil => rfl
  | cons p rest ih =>
      simp only [List.all_cons, Bool.and_eq_true] at h
      simp [itemsEqB, pyEqB_refl_scalar p.2 h.1, ih h.2]

/-- Items-tuple equality is transitive. -/
theorem itemsEqB_trans (a b c : List (String × JValue))
    (hab : itemsEqB a b = true) (hbc : itemsEqB b c = true) :
    itemsEqB a c = true := by
  induction a generalizing b c with
  | nil => cases b <;> cases c <;> simp_all [itemsEqB]
  | cons x xs ih =>
      cases b with
      | nil => simp_all [itemsEqB]
      | cons y ys =>
          cases c with
          | nil => simp_all [itemsEqB]
          | cons z zs =>
              simp only [itemsEqB, Bool.and_eq_true, beq_iff_eq] at hab hbc ⊢
              exact ⟨⟨hab.1.1.trans hbc.1.1,
                pyEqB_trans _ _ _ hab.1.2 hbc.1.2⟩, ih ys zs hab.2 hbc.2⟩

/-- Dict equality (as the set-of-items dedup compares) is reflexive on
scalar-valued mappings. -/
theorem dictEqB_refl (v : JValue) (h1 : v.isObj = true)
    (h2 : objValsScalar v = true) : dictEqB v v = true := by
  cases v with
  | obj kvs =>
      simp only [objValsScalar] at h2
      simpa [dictEqB] using itemsEqB_refl kvs h2
  | null => simp [JValue.isObj] at h1
  | bool b => simp [JValue.isObj] at h1
  | int n => simp [JValue.isObj] at h1
  | str s => simp [JValue.isObj] at h1
  | list xs => simp [JValue.isObj] at h1

/-- Dict equality is transitive. -/
theorem dictEqB_trans (a b c : JValue) (hab : dictEqB a b = true)
    (hbc : dictEqB b c = true) : dictEqB a c = true := by
  cases a <;> cases b <;> cases c <;>
    first
      | (exact itemsEqB_trans _ _ _ hab hbc)
      | (exact Bool.noConfusion hab)
      | (exact Bool.noConfusion hbc)

/-- First-seen dedup yields a sublist: order and multiplicity never
increase. -/
theorem dedupByB_sublist {α : Type} (eq : α → α → Bool) (l : List α) :
    (dedupByB eq l).Sublist l := by
  induction l with
  | nil => simp [dedupByB]
  | cons x xs ih =>
      simp only [dedupByB]
      exact List.Sublist.cons₂ x ((List.filter_sublist _).trans ih)

/-- No two members of the dedup result are equivalent. -/
theorem dedupByB_pairwise {α : Type} (eq : α → α → Bool) (l : List α) :
    (dedupByB eq l).Pairwise (fun a b => eq a b = false) := by
  induction l with
  | nil => simp [dedupByB]
  | cons x xs ih =>
      simp only [dedupByB]
      refine List.Pairwise.cons ?_ (ih.sublist (List.filter_sublist _))
      intro y hy
      have hmem := List.of_mem_filter hy
      simpa using hmem

/-- Every input element has an equivalent representative in the dedup
result (for a reflexive-on-members, transitive test). -/
theorem dedupByB_exists_rep {α : Type} (eq : α → α → Bool)
    (htrans : ∀ a b c, eq a b = true → eq b c = true → eq a c = true) :
    ∀ (l : List α), (∀ a ∈ l, eq a a = true) →
      ∀ a ∈ l, ∃ y ∈ dedupByB eq l, eq y a = true := by
  intro l
  induction l with
  | nil => intro _ a ha; simp at ha
  | cons x xs ih =>
      intro hrefl a ha
      rcases List.mem_cons.mp ha with h1 | h2
      · subst h1
        exact ⟨a, by simp [dedupByB], hrefl a (List.mem_cons_self _ _)⟩
      · obtain ⟨y, hy, hya⟩ :=
          ih (fun b hb => hrefl b (List.mem_cons_of_mem _ hb)) a h2
        by_cases hxy : eq x y = true
        · exact ⟨x, by simp [dedupByB], htrans x y a hxy hya⟩
        · refine ⟨y, ?_, hya⟩
          simp only [dedupByB, List.mem_cons]
          right
          exact List.mem_filter.mpr ⟨hy, by simp [hxy]⟩

/-- The check_match inner loop over the rule paths appends exactly the
comprehension over the matching rule paths. -/
theorem cmInner_foldl (pats : List String) (pv : String × JValue)
    (acc : List (String × JValue)) :
    pats.foldl (fun acc2 cp =>
      if containsSub cp pv.1 then acc2 ++ [(pyReplace pv.1 cp "", pv.2)]
      else acc2) acc
    = acc ++ (pats.filter (fun cp => containsSub cp pv.1)).map
        (fun cp => (pyReplace pv.1 cp "", pv.2)) := by
  induction pats generalizing acc with
  | nil => simp
  | cons cp rest ih =>
      by_cases h : containsSub cp pv.1 = true
      · simp [List.foldl_cons, List.filter_cons, h, ih]
      · simp [List.foldl_cons, List.filter_cons, h, ih]

/-- The check_match candidate loop equals the candidates comprehension:
one (suffix, value) pair per flat pair and matching rule path, in flatten
order, the suffix removing every occurrence of the rule path. -/
theorem cmCandidates_flatMap (pats : List String)
    (fdata : List (String × JValue)) :
    cmCandidates pats fdata = fdata.flatMap (fun pv =>
      (pats.filter (fun cp => containsSub cp pv.1)).map
        (fun cp => (pyReplace pv.1 cp "", pv.2))) := by
  have main : ∀ (l : List (String × JValue)) (acc : List (String × JValue)),
      l.foldl (fun acc pv => pats.foldl (fun acc2 cp =>
        if containsSub cp pv.1 then acc2 ++ [(pyReplace pv.1 cp "", pv.2)]
        else acc2) acc) acc
      = acc ++ l.flatMap (fun pv =>
          (pats.filter (fun cp => containsSub cp pv.1)).map
            (fun cp => (pyReplace pv.1 cp "", pv.2))) := by
    intro l
    induction l with
    | nil => intro acc; simp
    | cons pv rest ih =>
        intro acc
        simp only [List.foldl_cons, List.flatMap_cons]
        rw [cmInner_foldl, ih, List.append_assoc]
  simpa [cmCandidates] using main fdata []

mutual

/-- Every pair the flattener yields carries a scalar: the walk only stops
at values that are neither mappings nor lists. -/
theorem flattenAux_scalar : ∀ (v : JValue) (keys : List String),
    ((flattenAux v keys).all (fun pv => pv.2.isScalar)) = true
  | .obj kvs, keys => by
      rw [flattenAux]
      exact flattenObj_scalar kvs keys
  | .list xs, keys => by
      rw [flattenAux]
      exact flattenArr_scalar xs 0 keys
  | .null, _ => by simp [flattenAux, JValue.isScalar]
  | .bool _, _ => by simp [flattenAux, JValue.isScalar]
  | .int _, _ => by simp [flattenAux, JValue.isScalar]
  | .str _, _ => by simp [flattenAux, JValue.isScalar]

/-- Scalar values, dict branch. -/
theorem flattenObj_scalar : ∀ (kvs : List (String × JValue))
    (keys : List String),
    ((flattenObj kvs keys).all (fun pv => pv.2.isScalar)) = true
  | [], _ => rfl
  | (k, v) :: rest, keys => by
      rw [flattenObj, List.all_append, Bool.and_eq_true]
      exact ⟨flattenAux_scalar v (keys ++ [k]), flattenObj_scalar rest keys⟩

/-- Scalar values, list branch. -/
theorem flattenArr_scalar : ∀ (xs : List JValue) (i : Nat)
    (keys : List String),
    ((flattenArr xs i keys).all (fun pv => pv.2.isScalar)) = true
  | [], _, _ => rfl
  | v :: rest, i, keys => by
      rw [flattenArr, List.all_append, Bool.and_eq_true]
      exact ⟨flattenAux_scalar v _, flattenArr_scalar rest (i + 1) keys⟩

end

/-- Python dict assignment preserves a property of all stored values. -/
theorem aListUpd_snd_all {α : Type} (Q : α → Bool) (l : List (String × α))
    (k : String) (v : α) (hl : l.all (fun p => Q p.2) = true)
    (hv : Q v = true) :
    (aListUpd l k v).all (fun p => Q p.2) = true := by
  unfold aListUpd
  split
  · rw [List.all_map, List.all_eq_true]
    rw [List.all_eq_true] at hl
    intro p hp
    simp only [Function.comp_apply]
    by_cases h : (p.1 == k) = true
    · rw [if_pos h]
      exact hv
    · rw [if_neg h]
      exact hl p hp
  · rw [List.all_append]
    simp [hl, hv]

/-- Python dict(pairs) preserves a property of all values. -/
theorem dictOfList_snd_all (Q : JValue → Bool) (l : List (String × JValue))
    (hl : l.all (fun p => Q p.2) = true) :
    (dictOfList l).all (fun p => Q p.2) = true := by
  have main : ∀ (l2 : List (String × JValue)) (acc : List (String × JValue)),
      acc.all (fun p => Q p.2) = true → l2.all (fun p => Q p.2) = true →
      ((l2.foldl (fun acc p => aListUpd acc p.1 p.2) acc).all
        (fun p => Q p.2)) = true := by
    intro l2
    induction l2 with
    | nil => intro acc hacc _; simpa using hacc
    | cons p rest ih =>
        intro acc hacc hl2
        simp only [List.all_cons, Bool.and_eq_true] at hl2
        exact ih _ (aListUpd_snd_all Q acc p.1 p.2 hacc hl2.1) hl2.2
  exact main l [] rfl hl

/-- The flattened data dictionary holds only scalars. -/
theorem fdata_scalar (d : JValue) :
    ((dictOfList (flattenDoc d)).all (fun pv => pv.2.isScalar)) = true :=
  dictOfList_snd_all _ _ (flattenAux_scalar d ["$"])

/-- The iterate rule's inner loop body only appends entries whose value is
the current flat pair's value. -/
theorem iterInner_out_all (ir : IterateRule) (pv : String × JValue)
    (acc : IterAcc) (m : IterMapping)
    (hacc : acc.2.2.2.all (fun e => e.2.isScalar) = true)
    (hv : pv.2.isScalar = true) :
    ((iterInner ir pv acc m).2.2.2.all (fun e => e.2.isScalar)) = true := by
  obtain ⟨track, strack, lastTL, out⟩ := acc
  simp only [iterInner]
  repeat' split
  all_goals (try simp_all [List.all_append])
  all_goals assumption

/-- The inner foldl over the mappings preserves scalar-valued output. -/
theorem foldl_iterInner_all (ir : IterateRule) (pv : String × JValue) :
    ∀ (ms : List IterMapping) (acc : IterAcc),
      acc.2.2.2.all (fun e => e.2.isScalar) = true →
      pv.2.isScalar = true →
      ((ms.foldl (iterInner ir pv) acc).2.2.2.all
        (fun e => e.2.isScalar)) = true := by
  intro ms
  induction ms with
  | nil => intro acc hacc _; simpa using hacc
  | cons m rest ih =>
      intro acc hacc hv
      exact ih _ (iterInner_out_all ir pv acc m hacc hv) hv

/-- An iterate rule only emits values drawn from the flattened data, hence
scalars. -/
theorem iterRuleRun_out_all (ir : IterateRule)
    (fdata : List (String × JValue)) (track0 : List (String × Nat))
    (lastTL0 : Option String)
    (hf : fdata.all (fun pv => pv.2.isScalar) = true) :
    ((iterRuleRun ir fdata track0 lastTL0).2.2.all
      (fun e => e.2.isScalar)) = true := by
  have main : ∀ (l : List (String × JValue)) (acc : IterAcc),
      l.all (fun pv => pv.2.isScalar) = true →
      acc.2.2.2.all (fun e => e.2.isScalar) = true →
      ((l.foldl (iterOuter ir) acc).2.2.2.all
        (fun e => e.2.isScalar)) = true := by
    intro l
    induction l with
    | nil => intro acc _ hacc; simpa using hacc
    | cons pv rest ih =>
        intro acc hl hacc
        simp only [List.all_cons, Bool.and_eq_true] at hl
        exact ih _ hl.2 (foldl_iterInner_all ir pv ir.mappings acc hacc hl.1)
  simpa [iterRuleRun] using main fdata (track0, [], lastTL0, []) hf rfl

/-- A source rule only emits values drawn from the flattened data. -/
theorem srcOut_all (fdata : List (String × JValue)) (s target : String)
    (hf : fdata.all (fun pv => pv.2.isScalar) = true) :
    (((fdata.filter (fun pv => pv.1 == s)).map
      (fun pv => (target, pv.2))).all (fun e => e.2.isScalar)) = true := by
  rw [List.all_eq_true]
  intro e he
  rw [List.mem_map] at he
  obtain ⟨pv, hpv, he2⟩ := he
  rw [List.all_eq_true] at hf
  have := hf pv (List.mem_of_mem_filter hpv)
  rw [← he2]
  exact this

/-- A check_match rule only emits booleans. -/
theorem cmEmit_all (target : String) (pats : List String)
    (fdata : List (String × JValue)) :
    ((cmEmit target pats fdata).all (fun e => e.2.isScalar)) = true := by
  unfold cmEmit
  by_cases h : (cmCandidates pats fdata).isEmpty
  · simp [h]
  · simp [h, JValue.isScalar]

/-- Every entry one rule emits carries a scalar value. -/
theorem manifestStep_all (fdata : List (String × JValue)) (rule : Rule)
    (track : List (String × Nat)) (lastTL : Option String)
    (hf : fdata.all (fun pv => pv.2.isScalar) = true) :
    (((manifestStep fdata rule track lastTL).1).all
      (fun e => e.2.isScalar)) = true := by
  have hsrc : (match rule.source with
      | some s => (fdata.filter (fun pv : String × JValue => pv.1 == s)).map
          (fun pv : String × JValue => (rule.target, pv.2))
      | none => ([] : List (String × JValue))).all
        (fun e => e.2.isScalar) = true := by
    cases rule.source with
    | some s => exact srcOut_all fdata s rule.target hf
    | none => rfl
  have hcm : (match rule.check_match with
      | some pats => cmEmit rule.target pats fdata
      | none => ([] : List (String × JValue))).all
        (fun e => e.2.isScalar) = true := by
    cases rule.check_match with
    | some pats => exact cmEmit_all rule.target pats fdata
    | none => rfl
  cases hit : rule.iterate with
  | none =>
      simp only [manifestStep, hit]
      rw [List.all_append, Bool.and_eq_true]
      exact ⟨hsrc, hcm⟩
  | some ir =>
      have hito := iterRuleRun_out_all ir fdata track lastTL hf
      simp only [manifestStep, hit]
      rcases hr : iterRuleRun ir fdata track lastTL with ⟨track2, lastTL2, itOut⟩
      rw [hr] at hito
      have hito2 : (itOut.all (fun e => e.2.isScalar)) = true := hito
      cases lastTL2 <;> simp [List.all_append, hsrc, hcm, hito2]

/-- Every entry the manifest generator yields carries a scalar value. -/
theorem manifestTraceAux_all (fdata : List (String × JValue))
    (hf : fdata.all (fun pv => pv.2.isScalar) = true) :
    ∀ (rules : List Rule) (track : List (String × Nat))
      (lastTL : Option String),
      (((manifestTraceAux fdata rules track lastTL).1).all
        (fun e => e.2.isScalar)) = true := by
  intro rules
  induction rules with
  | nil => intro track lastTL; rfl
  | cons r rest ih =>
      intro track lastTL
      have hstep := manifestStep_all fdata r track lastTL hf
      simp only [manifestTraceAux]
      cases hms : manifestStep fdata r track lastTL with
      | mk out rest2 =>
          obtain ⟨track2, lastTL2, e⟩ := rest2
          cases e with
          | some err => simpa using (by rw [hms] at hstep; simpa using hstep)
          | none =>
              simp only []
              rw [List.all_append, Bool.and_eq_true]
              exact ⟨by rw [hms] at hstep; simpa using hstep, ih track2 lastTL2⟩

/-- Every manifest entry of the engine carries a scalar value. -/
theorem manifestTrace_scalar (d : JValue) (rules : List Rule) :
    (((manifestTrace d rules).1).all (fun e => e.2.isScalar)) = true :=
  manifestTraceAux_all (dictOfList (flattenDoc d)) (fdata_scalar d) rules [] none

/-- Claim C1: for data {"name":"r1","val":42} and the two source rules
targeting $.reports[?(@.title=='R')].name and .val, project returns
{"reports":[{"title":"R","name":"r1","val":42}]} — the two manifest entries
whose targets carry the same predicate query are merged into a single list
element that also holds the predicate's key/value pair, and the reports
list has exactly one element. -/
theorem c1_query_entries_merge :
    project dataB rulesB = Except.ok (JValue.obj
      [("reports", JValue.list [JValue.obj
        [("title", JValue.str "R"), ("name", JValue.str "r1"),
         ("val", JValue.int 42)]])]) := rfl

/-- Claim C2 (code bug): project is claimed never to raise on well-formed
inputs, and an iterate rule matching no flat path is claimed to emit
nothing; in fact for data {"a":1} and an iterate rule over $.xs the
generator's post-loop increment reads the loop variable target_list, which
was never assigned, and the engine raises UnboundLocalError. -/
theorem c2_unmatched_iterate_raises :
    project dataNoMatch rulesC = Except.error PyErr.unboundLocalError := rfl

/-- Claim C3 (code bug): the query-existence law fails when the query
segment sits below an intermediate plain key that does not yet exist.  The
rule emits one manifest entry, yet project returns the empty document: the
query navigator's key-only case recurses into a fresh dict that it never
attaches to the record, so no element satisfying the predicate (indeed
nothing at all) is created at $.a.b. -/
theorem c3_nested_query_write_dropped :
    manifestTrace (JValue.obj [("v", JValue.int 1)])
      [srcRule "$.v" "$.a.b[?(@.t=='x')].c"]
      = ([("$.a.b[?(@.t=='x')].c", JValue.int 1)], none) ∧
    project (JValue.obj [("v", JValue.int 1)])
      [srcRule "$.v" "$.a.b[?(@.t=='x')].c"]
      = Except.ok (JValue.obj []) := ⟨rfl, rfl⟩

/-- Claim C4, counterexample: the claim says integer literals become
integers, so that ?(@.y==2) matches an element whose y holds the integer 2.
In fact the conditions parser yields the string "2", an element with
y = 2 (integer) does not match, and end to end the engine appends a fresh
placeholder {"y":"2"} instead of matching the existing element. -/
theorem c4_counterexample :
    conditionsOf "?(@.y==2)" = Except.ok [("y", "2")] ∧
    predMatch [("y", "2")] [("y", JValue.int 2)] = false ∧
    project dataY rulesY = Except.ok (JValue.obj
      [("xs", JValue.list
        [JValue.obj [("z", JValue.str "w"), ("y", JValue.int 2)],
         JValue.obj [("y", JValue.str "2"), ("m", JValue.int 7)]])]) :=
  ⟨rfl, rfl, rfl⟩

/-- Claim C4, amended: predicate evaluation compares element[predicateKey]
for equality with the parsed literal; string literals have their quotes
stripped and remain strings, and integer literals also remain strings
(the parser never converts them), hence ?(@.y==2) matches an element whose
y holds the string "2" and not one whose y holds the integer 2. -/
theorem c4_literal_stays_string :
    conditionsOf "?(@.title=='R')" = Except.ok [("title", "R")] ∧
    conditionsOf "?(@.y==2)" = Except.ok [("y", "2")] ∧
    predMatch [("y", "2")] [("y", JValue.str "2")] = true ∧
    predMatch [("y", "2")] [("y", JValue.int 2)] = false :=
  ⟨rfl, rfl, rfl, rfl⟩

/-- Claim C5, counterexample: the claim defines the suffix as the flat path
with the first occurrence of the matching prefix removed.  For data
{"a":{"a":1},"b":{"b":1}} and prefixes [".a", ".b"], that reading predicts
the boolean false, but the source removes every occurrence
(str.replace), and the emitted boolean is true. -/
theorem c5_counterexample :
    manifestTrace dataRep rulesRep = ([("$.s", JValue.bool true)], none) ∧
    (2 * (dedupByB pairEqB (cmCandidatesFirst [".a", ".b"]
        (dictOfList (flattenDoc dataRep)))).length ==
      (cmCandidatesFirst [".a", ".b"]
        (dictOfList (flattenDoc dataRep))).length) = false :=
  ⟨rfl, rfl⟩

/-- Claim C5, amended: for every check_match rule, the candidates are the
(suffix, value) pairs in flatten order over each flat pair containing a
rule prefix, the suffix removing every occurrence of that prefix; with no
candidates the rule emits nothing, otherwise exactly one entry
(target, b) with b true iff twice the number of distinct (suffix, value)
tuples equals the candidate count.  The two concrete examples of the claim
evaluate to true and false as stated. -/
theorem c5_check_match_law :
    (∀ (pats : List String) (fdata : List (String × JValue)),
      cmCandidates pats fdata = fdata.flatMap (fun pv =>
        (pats.filter (fun cp => containsSub cp pv.1)).map
          (fun cp => (pyReplace pv.1 cp "", pv.2)))) ∧
    (∀ (target : String) (pats : List String)
      (fdata : List (String × JValue)) (track : List (String × Nat))
      (lastTL : Option String),
      manifestStep fdata (cmRule pats target) track lastTL =
        (if (cmCandidates pats fdata).isEmpty then []
         else [(target, JValue.bool
           (2 * (dedupByB pairEqB (cmCandidates pats fdata)).length ==
            (cmCandidates pats fdata).length))], track, lastTL, none)) ∧
    manifestTrace dataD [cmRule ["$.A", "$.B"] "$.same"]
      = ([("$.same", JValue.bool true)], none) ∧
    manifestTrace dataE [cmRule ["$.A", "$.B"] "$.same"]
      = ([("$.same", JValue.bool false)], none) :=
  ⟨cmCandidates_flatMap, fun _ _ _ _ _ => rfl, rfl, rfl⟩

/-- Claim C6 (code bug): the iterate rule's manifest entries do carry the
contiguous target indices 0, 1, 2 in source order, but project does not
return {"ys":[...]}: the plain writer's _get_index returns the truthy
tuple (None, None) for the bracket-free segment "key", so insert_value
takes the list branch with a None index and raises TypeError at
`0 <= None`. -/
theorem c6_iterate_cursor_and_crash :
    manifestTrace dataC rulesC =
      ([("$.ys[0].key", JValue.str "a"), ("$.ys[1].key", JValue.str "b"),
        ("$.ys[2].key", JValue.str "c")], none) ∧
    project dataC rulesC = Except.error PyErr.typeError := ⟨rfl, rfl⟩

/-- Claim C7: project is a pure function of its inputs, so two invocations
on the same (data, rules) yield equal documents; the concrete instance
exercises a filter_unique rule deduplicating a list of two equal mappings
(where CPython's set order cannot matter, the deduplicated list being a
singleton). -/
theorem c7_determinism :
    (∀ (d : JValue) (rules : List Rule), project d rules = project d rules) ∧
    project dataU rulesU = Except.ok (JValue.obj
      [("xs", JValue.list [JValue.obj
        [("t", JValue.str "u"), ("k", JValue.str "r1")]])]) :=
  ⟨fun _ _ => rfl, rfl⟩

/-- Claim C8: the engine leaves its inputs unchanged.  With the manifest
object's attribute state made explicit, get_projection returns the state
with the stored data and rules untouched and its result equal to project;
moreover every manifest entry's value is a scalar (flatten only yields
leaves and check_match yields booleans), so the record never shares
mutable structure with the input document. -/
theorem c8_inputs_unchanged :
    (∀ (d : JValue) (rules : List Rule),
      (getProjectionS (mkManifest d rules)).2._data = d ∧
      (getProjectionS (mkManifest d rules)).2._rules = rules ∧
      (getProjectionS (mkManifest d rules)).1 = project d rules) ∧
    (∀ (d : JValue) (rules : List Rule),
      ((manifestTrace d rules).1).all (fun e => e.2.isScalar) = true) :=
  ⟨fun _ _ => ⟨rfl, rfl, rfl⟩, manifestTrace_scalar⟩

/-- Claim C9, counterexample: the path "$.xs[?(@.t=='u') && ]" does not
parse under the §4.1 grammar, yet the engine raises nothing: project
returns normally (here the empty document), so no PathSyntaxError — a
class the code base does not even define — identifies the offending
path. -/
theorem c9_counterexample :
    outputPathWF badPath = false ∧
    project (JValue.obj [("v", JValue.int 1)]) [srcRule "$.v" badPath]
      = Except.ok (JValue.obj []) := ⟨rfl, rfl⟩

/-- Claim C9, amended: a malformed output path is never rejected with a
PathSyntaxError identifying it (the code base defines no such class and
validates no path); what happens instead depends on the path.  A
query-bearing path has its unparsable portions silently skipped by
parse_path (here only the keys "xs" and a spurious "t" scraped out of the
broken query remain) and the entry is processed on the segments that
matched — for this path project returns normally with the empty document.
A malformed plain path such as "$.xs[" never reaches parse_path at all:
insert_value splits it on dots, and its index helper makes the writer
raise an incidental TypeError — an arithmetic comparison failure, not a
rejection naming the path. -/
theorem c9_no_path_rejection :
    outputPathWF badPath = false ∧
    parseSegs badPath = [⟨"xs", none, none⟩, ⟨"t", none, none⟩] ∧
    project (JValue.obj [("v", JValue.int 1)]) [srcRule "$.v" badPath]
      = Except.ok (JValue.obj []) ∧
    outputPathWF badPlainPath = false ∧
    project (JValue.obj [("v", JValue.int 1)]) [srcRule "$.v" badPlainPath]
      = Except.error PyErr.typeError := ⟨rfl, rfl, rfl, rfl, rfl⟩

/-- Claim C10, counterexample: the claim says that when every element at
the filtered path is a mapping, remove_duplicates returns each distinct
mapping exactly once.  Here the single element of $.xs is a mapping, but
one of its values is a list, its items() tuple is unhashable, and project
raises TypeError instead of returning. -/
theorem c10_counterexample :
    projectRaw (JValue.obj [("v", JValue.int 5)]) rulesNest
      = Except.ok (JValue.obj [("xs", JValue.list
          [JValue.obj [("t", JValue.str "u"),
            ("a", JValue.list [JValue.int 5])]])]) ∧
    ([JValue.obj [("t", JValue.str "u"), ("a", JValue.list [JValue.int 5])]].all
      JValue.isObj) = true ∧
    project (JValue.obj [("v", JValue.int 5)]) rulesNest
      = Except.error PyErr.typeError := ⟨rfl, rfl, rfl⟩

/-- Claim C10, amended: _dedup_list is total only for homogeneous lists of
hashable elements.  When every element is a mapping with all-scalar
values it returns each distinct mapping exactly once (a sublist holding a
representative of every element, no two of which are equal); when every
element is a scalar it returns the distinct scalars in first-seen order;
a mixed list with at least one mapping and one non-mapping raises
TypeError, and project propagates the exception, as the concrete
filter_unique run shows. -/
theorem c10_dedup_totality :
    (∀ (xs : List JValue), xs.all JValue.isObj = true →
      xs.all objValsScalar = true →
      dedupListF (.list xs) = Except.ok (.list (dedupByB dictEqB xs)) ∧
      (dedupByB dictEqB xs).Sublist xs ∧
      (∀ a ∈ xs, ∃ y ∈ dedupByB dictEqB xs, dictEqB y a = true) ∧
      (dedupByB dictEqB xs).Pairwise (fun a b => dictEqB a b = false)) ∧
    (∀ (xs : List JValue), xs.all JValue.isScalar = true →
      dedupListF (.list xs) = Except.ok (.list (dedupByB pyEqB xs)) ∧
      (dedupByB pyEqB xs).Sublist xs ∧
      (∀ a ∈ xs, ∃ y ∈ dedupByB pyEqB xs, pyEqB y a = true) ∧
      (dedupByB pyEqB xs).Pairwise (fun a b => pyEqB a b = false)) ∧
    (∀ (xs : List JValue), (∃ x ∈ xs, x.isObj = true) →
      (∃ x ∈ xs, x.isObj = false) →
      dedupListF (.list xs) = Except.error PyErr.typeError) ∧
    project (JValue.obj [("v", JValue.int 5)]) rulesMixed
      = Except.error PyErr.typeError := by
  refine ⟨?_, ?_, ?_, rfl⟩
  · intro xs h1 h2
    refine ⟨by simp [dedupListF, h1, h2], dedupByB_sublist _ _, ?_,
      dedupByB_pairwise _ _⟩
    refine dedupByB_exists_rep dictEqB dictEqB_trans xs ?_
    intro a ha
    rw [List.all_eq_true] at h1 h2
    exact dictEqB_refl a (h1 a ha) (h2 a ha)
  · intro xs h
    have hmain : dedupListF (.list xs)
        = Except.ok (.list (dedupByB pyEqB xs)) := by
      cases xs with
      | nil => rfl
      | cons x rest =>
          have hx : x.isScalar = true := by
            rw [List.all_eq_true] at h
            exact h x (List.mem_cons_self _ _)
          have hobj : ((x :: rest).all JValue.isObj) = false := by
            rw [List.all_eq_false]
            exact ⟨x, List.mem_cons_self _ _, by cases x <;> simp_all
              [JValue.isScalar, JValue.isObj]⟩
          simp [dedupListF, hobj, h]
    refine ⟨hmain, dedupByB_sublist _ _, ?_, dedupByB_pairwise _ _⟩
    refine dedupByB_exists_rep pyEqB pyEqB_trans xs ?_
    intro a ha
    rw [List.all_eq_true] at h
    exact pyEqB_refl_scalar a (h a ha)
  · intro xs hobj hnon
    obtain ⟨x, hx, hxo⟩ := hobj
    obtain ⟨y, hy, hyo⟩ := hnon
    have h1 : (xs.all JValue.isObj) = false := by
      rw [List.all_eq_false]
      exact ⟨y, hy, by simp [hyo]⟩
    have h2 : (xs.all JValue.isScalar) = false := by
      rw [List.all_eq_false]
      refine ⟨x, hx, ?_⟩
      cases x <;> simp_all [JValue.isScalar, JValue.isObj]
    simp [dedupListF, h1, h2]

/-- Witness for c10_dedup_totality: the theorem applied at concrete lists —
two equal scalar-valued mappings deduplicate to one, and the mixed list
[{}, 5] raises TypeError. -/
theorem c10_dedup_totality_witness :
    dedupListF (.list [JValue.obj [("k", JValue.str "a")],
        JValue.obj [("k", JValue.str "a")]])
      = Except.ok (.list (dedupByB dictEqB
          [JValue.obj [("k", JValue.str "a")],
           JValue.obj [("k", JValue.str "a")]])) ∧
    dedupListF (.list [JValue.int 1, JValue.int 1, JValue.int 2])
      = Except.ok (.list (dedupByB pyEqB
          [JValue.int 1, JValue.int 1, JValue.int 2])) ∧
    dedupListF (.list [JValue.obj [], JValue.int 5])
      = Except.error PyErr.typeError :=
  ⟨(c10_dedup_totality.1 [JValue.obj [("k", JValue.str "a")],
      JValue.obj [("k", JValue.str "a")]] rfl rfl).1,
   (c10_dedup_totality.2.1 [JValue.int 1, JValue.int 1, JValue.int 2] rfl).1,
   c10_dedup_totality.2.2.1 [JValue.obj [], JValue.int 5]
     ⟨JValue.obj [], List.mem_cons_self _ _, rfl⟩
     ⟨JValue.int 5, by simp, rfl⟩⟩
